import Mathlib

/-!
Shallow embedding of `src/generate_bcrypt.py` (repository zlovtnik/graphqlScala).

The script (lines 10-36):
  line 11: `strong_password = secrets.token_urlsafe(32)`
  line 15: `temp_file = tempfile.NamedTemporaryFile(mode='w', delete=False,
            suffix='.txt', prefix='bcrypt_password_')` (outside the try block)
  line 18: `os.chmod(temp_file.name, 0o600)`
  line 21: `temp_file.write(strong_password)`
  line 22: `temp_file.close()`
  lines 25-32: eight `print` calls, interpolating only `temp_file.name`
  lines 34-36: `except Exception as e: print(f"Error: {e}", file=sys.stderr); raise`

Randomness (the 32 bytes drawn by `os.urandom` inside `secrets.token_urlsafe`,
and the candidate name suffixes tried by `tempfile`) is passed in explicitly.
Filesystem faults are passed in as an oracle saying which OS call fails.
-/

namespace GenerateBcrypt

/-- Base64 chunking used by `base64.urlsafe_b64encode` (with the `=` padding
already stripped, as `secrets.token_urlsafe` does with `rstrip(b'=')`):
each group of three bytes becomes four 6-bit values; a trailing group of one
byte becomes two values and a trailing group of two bytes becomes three. -/
def sextets : List Nat → List Nat
  | [] => []
  | [b1] => [b1 / 4, b1 % 4 * 16]
  | [b1, b2] => [b1 / 4, b1 % 4 * 16 + b2 / 16, b2 % 16 * 4]
  | b1 :: b2 :: b3 :: rest =>
      b1 / 4 :: (b1 % 4 * 16 + b2 / 16) :: (b2 % 16 * 4 + b3 / 64) :: b3 % 64 ::
        sextets rest

/-- Inverse of `sextets` on valid byte lists; used only to prove injectivity. -/
def unsextets : List Nat → List Nat
  | [] => []
  | [_] => []
  | [s1, s2] => [s1 * 4 + s2 / 16]
  | [s1, s2, s3] => [s1 * 4 + s2 / 16, s2 % 16 * 16 + s3 / 4]
  | s1 :: s2 :: s3 :: s4 :: rest =>
      (s1 * 4 + s2 / 16) :: (s2 % 16 * 16 + s3 / 4) :: (s3 % 4 * 64 + s4) ::
        unsextets rest

/-- Alphabet of `base64.urlsafe_b64encode`: the standard base64 alphabet with
`+` replaced by `-` and `/` replaced by `_`. -/
def b64alpha : List Char :=
  "ABCDEFGHIJKLMNOPQRSTUVWXYZabcdefghijklmnopqrstuvwxyz0123456789-_".data

/-- Character for one 6-bit value. -/
def b64char (i : Nat) : Char := b64alpha.getD i '='

/-- Embedding of `secrets.token_urlsafe` applied to an explicit list of random
bytes: base64url-encode the bytes and strip the padding (line 11 of the source
draws the 32 bytes via `os.urandom` inside the library call). -/
def tokenUrlsafe (bytes : List Nat) : String :=
  ⟨(sextets bytes).map b64char⟩

/-- Valid draw: every byte below 256. -/
def validBytes (l : List Nat) : Prop := ∀ b ∈ l, b < 256

theorem unsextets_sextets (l : List Nat) (h : validBytes l) :
    unsextets (sextets l) = l := by
  induction l using sextets.induct with
  | case1 => rfl
  | case2 b1 =>
      have hb1 : b1 < 256 := h b1 (by simp)
      simp only [sextets, unsextets, List.cons.injEq, and_true]
      omega
  | case3 b1 b2 =>
      have hb1 : b1 < 256 := h b1 (by simp)
      have hb2 : b2 < 256 := h b2 (by simp)
      simp only [sextets, unsextets, List.cons.injEq, and_true]
      omega
  | case4 b1 b2 b3 rest ih =>
      have hb1 : b1 < 256 := h b1 (by simp)
      have hb2 : b2 < 256 := h b2 (by simp)
      have hb3 : b3 < 256 := h b3 (by simp)
      have hrest : validBytes rest := fun b hb => h b (by simp [hb])
      simp only [sextets, unsextets, ih hrest, List.cons.injEq, and_true]
      omega

theorem sextets_injOn {l1 l2 : List Nat} (h1 : validBytes l1) (h2 : validBytes l2)
    (h : sextets l1 = sextets l2) : l1 = l2 := by
  rw [← unsextets_sextets l1 h1, ← unsextets_sextets l2 h2, h]

theorem sextets_lt64 (l : List Nat) (h : validBytes l) :
    ∀ s ∈ sextets l, s < 64 := by
  induction l using sextets.induct with
  | case1 => simp [sextets]
  | case2 b1 =>
      have hb1 : b1 < 256 := h b1 (by simp)
      simp only [sextets, List.mem_cons, List.not_mem_nil, or_false]
      rintro s (rfl | rfl) <;> omega
  | case3 b1 b2 =>
      have hb1 : b1 < 256 := h b1 (by simp)
      have hb2 : b2 < 256 := h b2 (by simp)
      simp only [sextets, List.mem_cons, List.not_mem_nil, or_false]
      rintro s (rfl | rfl | rfl) <;> omega
  | case4 b1 b2 b3 rest ih =>
      have hb1 : b1 < 256 := h b1 (by simp)
      have hb2 : b2 < 256 := h b2 (by simp)
      have hb3 : b3 < 256 := h b3 (by simp)
      have hrest : validBytes rest := fun b hb => h b (by simp [hb])
      simp only [sextets, List.mem_cons]
      rintro s (rfl | rfl | rfl | rfl | hs)
      · omega
      · omega
      · omega
      · omega
      · exact ih hrest s hs

theorem sextets_length (l : List Nat) :
    (sextets l).length = (4 * l.length + 2) / 3 := by
  induction l using sextets.induct with
  | case1 => rfl
  | case2 b1 => simp [sextets]
  | case3 b1 b2 => simp [sextets]
  | case4 b1 b2 b3 rest ih =>
      simp only [sextets, List.length_cons, ih]
      omega

theorem b64char_injOn :
    ∀ i < 64, ∀ j < 64, b64char i = b64char j → i = j := by decide

theorem map_b64char_injOn {l1 l2 : List Nat} (h1 : ∀ s ∈ l1, s < 64)
    (h2 : ∀ s ∈ l2, s < 64) (h : l1.map b64char = l2.map b64char) : l1 = l2 := by
  induction l1 generalizing l2 with
  | nil => cases l2 <;> simp_all
  | cons a t ih =>
      cases l2 with
      | nil => simp_all
      | cons b t2 =>
          simp only [List.map_cons, List.cons.injEq] at h
          have ha : a < 64 := h1 a (by simp)
          have hb : b < 64 := h2 b (by simp)
          have : a = b := b64char_injOn a ha b hb h.1
          have ht : t = t2 :=
            ih (fun s hs => h1 s (by simp [hs])) (fun s hs => h2 s (by simp [hs])) h.2
          simp [this, ht]

theorem tokenUrlsafe_injOn {l1 l2 : List Nat} (h1 : validBytes l1)
    (h2 : validBytes l2) (h : tokenUrlsafe l1 = tokenUrlsafe l2) : l1 = l2 := by
  have hdata : (sextets l1).map b64char = (sextets l2).map b64char := by
    have := congrArg String.data h
    simpa [tokenUrlsafe] using this
  exact sextets_injOn h1 h2
    (map_b64char_injOn (sextets_lt64 l1 h1) (sextets_lt64 l2 h2) hdata)

theorem tokenUrlsafe_length (l : List Nat) :
    (tokenUrlsafe l).length = (4 * l.length + 2) / 3 := by
  simp [tokenUrlsafe, String.length, sextets_length]

/-- Characters of the base64url alphabet: letters, digits, `-` and `_`. -/
def urlsafeChar (c : Char) : Bool :=
  ('A' ≤ c && c ≤ 'Z') || ('a' ≤ c && c ≤ 'z') || ('0' ≤ c && c ≤ '9') ||
    c = '-' || c = '_'

theorem urlsafeChar_b64char : ∀ i < 64, urlsafeChar (b64char i) = true := by decide

theorem tokenUrlsafe_chars (l : List Nat) (h : validBytes l) :
    ∀ c ∈ (tokenUrlsafe l).data, urlsafeChar c = true := by
  intro c hc
  simp only [tokenUrlsafe, List.mem_map] at hc
  obtain ⟨s, hs, rfl⟩ := hc
  exact urlsafeChar_b64char s (sextets_lt64 l h s hs)

/-- Proposition that `p` occurs as a contiguous substring of `l`. -/
def occursIn (p l : List Char) : Prop := ∃ u v, l = u ++ p ++ v

theorem isPrefixOf_iff_exists (p l : List Char) :
    p.isPrefixOf l = true ↔ ∃ v, l = p ++ v := by
  induction p generalizing l with
  | nil => simp [List.isPrefixOf]
  | cons a t ih =>
      cases l with
      | nil => simp [List.isPrefixOf]
      | cons c l' =>
          simp only [List.isPrefixOf, Bool.and_eq_true, beq_iff_eq, ih,
            List.cons_append, List.cons.injEq]
          constructor
          · rintro ⟨rfl, v, rfl⟩; exact ⟨v, rfl, rfl⟩
          · rintro ⟨v, rfl, rfl⟩; exact ⟨rfl, v, rfl⟩

/-- Executable substring test. -/
def occursInB (p : List Char) : List Char → Bool
  | [] => p.isEmpty
  | c :: t => p.isPrefixOf (c :: t) || occursInB p t

theorem occursInB_iff (p l : List Char) : occursInB p l = true ↔ occursIn p l := by
  induction l with
  | nil =>
      simp only [occursInB, List.isEmpty_iff, occursIn]
      constructor
      · rintro rfl; exact ⟨[], [], rfl⟩
      · rintro ⟨u, v, h⟩
        rcases List.append_eq_nil.mp h.symm with ⟨h1, h2⟩
        exact (List.append_eq_nil.mp h1).2
  | cons c t ih =>
      simp only [occursInB, Bool.or_eq_true, isPrefixOf_iff_exists, ih, occursIn]
      constructor
      · rintro (⟨v, hv⟩ | ⟨u, v, hv⟩)
        · exact ⟨[], v, by simp [hv]⟩
        · exact ⟨c :: u, v, by simp [hv]⟩
      · rintro ⟨u, v, hv⟩
        cases u with
        | nil => exact Or.inl ⟨v, by simpa using hv⟩
        | cons a u' =>
            simp only [List.cons_append, List.cons.injEq] at hv
            exact Or.inr ⟨u', v, hv.2⟩

instance (p l : List Char) : Decidable (occursIn p l) :=
  decidable_of_iff (occursInB p l = true) (occursInB_iff p l)

theorem occursIn_append_left {p : List Char} (a : List Char) {b : List Char}
    (h : occursIn p b) : occursIn p (a ++ b) := by
  obtain ⟨u, v, rfl⟩ := h
  exact ⟨a ++ u, v, by simp⟩

theorem occursIn_append_right {p a : List Char} (b : List Char)
    (h : occursIn p a) : occursIn p (a ++ b) := by
  obtain ⟨u, v, rfl⟩ := h
  exact ⟨u, v ++ b, by simp⟩

/-- Occurrence in a concatenation lies in the left part, in the right part, or
straddles the boundary, in which case the last character of the left part and
the first character of the right part both belong to the pattern. -/
theorem occursIn_append_split {p a b : List Char}
    (h : occursIn p (a ++ b)) :
    occursIn p a ∨ occursIn p b ∨
      ((∃ c, a.getLast? = some c ∧ c ∈ p) ∧ (∃ c, b.head? = some c ∧ c ∈ p)) := by
  obtain ⟨u, v, huv⟩ := h
  rcases le_or_lt (u.length + p.length) a.length with h1 | h1
  · left
    have ha := congrArg (List.take a.length) huv
    rw [List.take_left, List.append_assoc, List.take_append_eq_append_take,
      List.take_of_length_le (by omega), List.take_append_eq_append_take,
      List.take_of_length_le (by omega)] at ha
    exact ⟨u, (v.take (a.length - u.length - p.length)), by rw [ha]; simp⟩
  · rcases le_or_lt a.length u.length with h2 | h2
    · right; left
      have hb := congrArg (List.drop a.length) huv
      rw [List.drop_left, List.append_assoc, List.drop_append_eq_append_drop,
        Nat.sub_eq_zero_of_le h2, List.drop_zero] at hb
      exact ⟨u.drop a.length, v, by rw [hb, List.append_assoc]⟩
    · right; right
      have hk1 : 0 < a.length - u.length := by omega
      have hk2 : a.length - u.length < p.length := by omega
      have e1 : a.length - u.length - p.length = 0 := by omega
      have ha := congrArg (List.take a.length) huv
      rw [List.take_left, List.append_assoc, List.take_append_eq_append_take,
        List.take_of_length_le (le_of_lt h2), List.take_append_eq_append_take,
        e1, List.take_zero, List.append_nil] at ha
      have hb := congrArg (List.drop a.length) huv
      rw [List.drop_left, List.append_assoc, List.drop_append_eq_append_drop,
        List.drop_of_length_le (le_of_lt h2), List.nil_append,
        List.drop_append_eq_append_drop, e1, List.drop_zero] at hb
      have htne : p.take (a.length - u.length) ≠ [] := by
        intro hnil
        have := congrArg List.length hnil
        simp only [List.length_take, List.length_nil] at this
        omega
      have hdne : p.drop (a.length - u.length) ≠ [] := by
        intro hnil
        have := congrArg List.length hnil
        simp only [List.length_drop, List.length_nil] at this
        omega
      constructor
      · refine ⟨(p.take (a.length - u.length)).getLast htne, ?_, ?_⟩
        · have hlast := congrArg List.getLast? ha
          rw [List.getLast?_append_of_ne_nil u htne,
            List.getLast?_eq_getLast _ htne] at hlast
          exact hlast
        · exact List.take_subset _ _ (List.getLast_mem htne)
      · refine ⟨(p.drop (a.length - u.length)).head hdne, ?_, ?_⟩
        · have hhead := congrArg List.head? hb
          rw [List.head?_append_of_ne_nil _ hdne, List.head?_eq_head hdne] at hhead
          exact hhead
        · exact List.drop_subset _ _ (List.head_mem hdne)

/-- Check that every window of `n` consecutive characters contains a character
outside the base64url alphabet (trivially true for windows that do not fit). -/
def noCleanWindow (n : Nat) : List Char → Bool
  | [] => true
  | c :: t =>
      (decide ((c :: t).length < n) || !((c :: t).take n).all urlsafeChar) &&
        noCleanWindow n t

theorem noCleanWindow_no_occursIn {n : Nat} {p l : List Char}
    (hw : noCleanWindow n l = true) (hlen : p.length = n) (hn : 0 < n)
    (hpc : ∀ c ∈ p, urlsafeChar c = true) : ¬ occursIn p l := by
  rintro ⟨u, v, rfl⟩
  induction u with
  | nil =>
      simp only [List.nil_append] at hw
      have hne : p ++ v ≠ [] := by
        intro hnil
        have := congrArg List.length hnil
        simp only [List.length_append, List.length_nil] at this
        omega
      obtain ⟨c, t, hct⟩ := List.exists_cons_of_ne_nil hne
      rw [hct] at hw
      simp only [noCleanWindow, Bool.and_eq_true, Bool.or_eq_true,
        decide_eq_true_eq, Bool.not_eq_true'] at hw
      rcases hw.1 with hshort | hdirty
      · rw [← hct] at hshort
        simp only [List.length_append] at hshort
        omega
      · rw [← hct, ← hlen, List.take_left] at hdirty
        obtain ⟨c0, hc0, hc0f⟩ := List.all_eq_false.mp hdirty
        rw [hpc c0 hc0] at hc0f
        simp at hc0f
  | cons a u' ih =>
      simp only [List.cons_append] at hw
      simp only [noCleanWindow, Bool.and_eq_true] at hw
      exact ih hw.2

theorem lastSep_of_eq {s : List Char} {c0 : Char} (h0 : s.getLast? = some c0)
    (hc0 : urlsafeChar c0 = false) :
    ∀ c, s.getLast? = some c → urlsafeChar c = false := by
  intro c hc
  rw [h0, Option.some.injEq] at hc
  rw [← hc]
  exact hc0

theorem headSep_of_eq {s : List Char} {c0 : Char} (h0 : s.head? = some c0)
    (hc0 : urlsafeChar c0 = false) :
    ∀ c, s.head? = some c → urlsafeChar c = false := by
  intro c hc
  rw [h0, Option.some.injEq] at hc
  rw [← hc]
  exact hc0

/-- Occurrence splitting when the left block ends in a separator character. -/
theorem occursIn_split_sepL {p a b : List Char}
    (hpc : ∀ c ∈ p, urlsafeChar c = true)
    (hsep : ∀ c, a.getLast? = some c → urlsafeChar c = false)
    (h : occursIn p (a ++ b)) : occursIn p a ∨ occursIn p b := by
  rcases occursIn_append_split h with h | h | ⟨⟨c, hc1, hc2⟩, _⟩
  · exact Or.inl h
  · exact Or.inr h
  · have h1 := hsep c hc1
    rw [hpc c hc2] at h1
    exact absurd h1 (by simp)

/-- Occurrence splitting when the right block starts with a separator. -/
theorem occursIn_split_sepR {p a b : List Char}
    (hpc : ∀ c ∈ p, urlsafeChar c = true)
    (hsep : ∀ c, b.head? = some c → urlsafeChar c = false)
    (h : occursIn p (a ++ b)) : occursIn p a ∨ occursIn p b := by
  rcases occursIn_append_split h with h | h | ⟨_, ⟨c, hc1, hc2⟩⟩
  · exact Or.inl h
  · exact Or.inr h
  · have h1 := hsep c hc1
    rw [hpc c hc2] at h1
    exact absurd h1 (by simp)

theorem no_occursIn_of_window {p l : List Char} (hw : noCleanWindow 43 l = true)
    (hlen : p.length = 43) (hpc : ∀ c ∈ p, urlsafeChar c = true) :
    ¬ occursIn p l :=
  noCleanWindow_no_occursIn hw hlen (by omega) hpc

/-! ### The program itself -/

/-- Literal text of line 25 before the interpolated path. -/
def outA1 : String := "Password written to: "

/-- Literal text between the first and second interpolation of the path:
the end of line 25, lines 26-28 and the start of line 29. -/
def outA2 : String :=
  "\nFile permissions: 0600 (owner-only)\n\nTo generate the bcrypt hash:\n1. Install bcrypt: pip install bcrypt\n2. Run: python3 -c \"import bcrypt; passwd=$(cat "

/-- Literal text between the second and third interpolation of the path:
the end of line 29 and the start of line 30. -/
def outA3 : String :=
  "); print(bcrypt.hashpw(passwd.encode(), bcrypt.gensalt(rounds=12)).decode())\"\n\n⚠️  IMPORTANT: Delete the file after use: rm "

/-- Literal text after the last interpolation of the path: the end of
line 30 and lines 31-32. -/
def outA4 : String :=
  "\n⚠️  Never commit this password file to version control\n⚠️  For production, store passwords in a secrets manager (e.g., AWS Secrets Manager, Vault)\n"

/-- Standard output produced by the eight `print` calls on lines 25-32 on the
success path; each call appends a newline, and only `temp_file.name` is ever
interpolated. -/
def successStdout (path : String) : String :=
  outA1 ++ path ++ outA2 ++ path ++ outA3 ++ path ++ outA4

/-- Stderr produced by lines 34-36 when an exception is caught: the explicit
`print(f"Error: {e}", file=sys.stderr)` followed by the traceback that the
interpreter prints for the re-raised exception, which ends with the rendered
exception message. -/
def handledStderr (m : String) : String :=
  "Error: " ++ m ++ "\nTraceback (most recent call last):\n" ++ m ++ "\n"

/-- Stderr produced by the interpreter for an exception raised outside the
try block (line 15 runs before `try`): a traceback ending with the rendered
exception message. -/
def uncaughtStderr (m : String) : String :=
  "Traceback (most recent call last):\n" ++ m ++ "\n"

/-- Fault oracle: which OS call fails, and with which rendered message.
`createErr` covers `tempfile.NamedTemporaryFile` (line 15), `chmodErr` covers
`os.chmod` (line 18), `writeErr` covers `temp_file.write` (line 21) and
`closeErr` covers `temp_file.close` (line 22). -/
structure Oracle where
  createErr : Option String
  chmodErr : Option String
  writeErr : Option String
  closeErr : Option String

/-- On-disk file as the model tracks it: path, permission bits, content. -/
structure FileState where
  path : String
  mode : Nat
  content : String
deriving DecidableEq

/-- Outcome of one invocation of the script. -/
structure RunResult where
  exitCode : Nat
  stdout : String
  stderr : String
  files : List FileState
deriving DecidableEq

/-- Name built by `tempfile` from the directory, the fixed prefix
`bcrypt_password_` (line 15), a random suffix, and the extension `.txt`. -/
def tmpName (tmpdir rnd : String) : String :=
  tmpdir ++ "/bcrypt_password_" ++ rnd ++ ".txt"

/-- Name selection of `tempfile.NamedTemporaryFile`: candidate names drawn
from its internal random sequence are tried in order with `O_CREAT|O_EXCL`,
so the first name not already present on disk is taken. -/
def pickName (tmpdir : String) (existing : List String) : List String → Option String
  | [] => none
  | r :: rs =>
      if tmpName tmpdir r ∈ existing then pickName tmpdir existing rs
      else some (tmpName tmpdir r)

/-- First failing stage of the run, in program order (create, chmod, write,
close). -/
def firstErr (o : Oracle) : Option String :=
  match o.createErr with
  | some m => some m
  | none =>
    match o.chmodErr with
    | some m => some m
    | none =>
      match o.writeErr with
      | some m => some m
      | none => o.closeErr

/-- Embedding of the whole script run (lines 11-36). `bytes` is the 32-byte
draw consumed by `secrets.token_urlsafe` on line 11; `tmpdir` and `cands` feed
the temporary-file name choice on line 15; `existing` is the prior state of
the disk; `o` says which OS call fails. `mkstemp` creates the file with mode
`0o600` already, and line 18 sets `0o600` again; `delete=False` means no path
is ever removed, including on the error path (lines 34-36 print to stderr and
re-raise, so the interpreter exits with a nonzero status). A write failure is
modelled as leaving the created file empty. -/
def run (bytes : List Nat) (tmpdir : String) (cands : List String)
    (existing : List FileState) (o : Oracle) : RunResult :=
  let secret := tokenUrlsafe bytes
  match o.createErr with
  | some m => ⟨1, "", uncaughtStderr m, existing⟩
  | none =>
    match pickName tmpdir (existing.map FileState.path) cands with
    | none => ⟨1, "", uncaughtStderr "FileExistsError: No usable temporary file name found", existing⟩
    | some path =>
      let afterCreate := existing ++ [⟨path, 0o600, ""⟩]
      match o.chmodErr with
      | some m => ⟨1, "", handledStderr m, afterCreate⟩
      | none =>
        match o.writeErr with
        | some m => ⟨1, "", handledStderr m, afterCreate⟩
        | none =>
          let afterWrite := existing ++ [⟨path, 0o600, secret⟩]
          match o.closeErr with
          | some m => ⟨1, "", handledStderr m, afterWrite⟩
          | none => ⟨0, successStdout path, "", afterWrite⟩

/-- Wrapper making explicit that the script reads no command-line arguments:
`sys.argv` never occurs in the source, so the run ignores `argv`. -/
def runWithArgs (_argv : List String) (bytes : List Nat) (tmpdir : String)
    (cands : List String) (existing : List FileState) (o : Oracle) : RunResult :=
  run bytes tmpdir cands existing o

instance (l : List Nat) : Decidable (validBytes l) :=
  inferInstanceAs (Decidable (∀ b ∈ l, b < 256))

/-! ### Structure lemmas about `run` -/

theorem pickName_not_mem {tmpdir n : String} {existing cands : List String}
    (h : pickName tmpdir existing cands = some n) : n ∉ existing := by
  induction cands with
  | nil => simp [pickName] at h
  | cons r rs ih =>
      simp only [pickName] at h
      split at h
      · exact ih h
      · rw [Option.some.injEq] at h
        rw [← h]
        assumption

theorem pickName_shape {tmpdir n : String} {existing cands : List String}
    (h : pickName tmpdir existing cands = some n) :
    ∃ r ∈ cands, n = tmpdir ++ "/bcrypt_password_" ++ r ++ ".txt" := by
  induction cands with
  | nil => simp [pickName] at h
  | cons r rs ih =>
      simp only [pickName] at h
      split at h
      · obtain ⟨r0, hr0, hn⟩ := ih h
        exact ⟨r0, by simp [hr0], hn⟩
      · rw [Option.some.injEq] at h
        exact ⟨r, by simp, by rw [← h]; simp [tmpName, String.ext_iff]⟩

theorem run_success_struct (bytes : List Nat) (tmpdir : String)
    (cands : List String) (existing : List FileState) (o : Oracle)
    (h : (run bytes tmpdir cands existing o).exitCode = 0) :
    ∃ pth, pickName tmpdir (existing.map FileState.path) cands = some pth ∧
      run bytes tmpdir cands existing o =
        ⟨0, successStdout pth, "",
          existing ++ [⟨pth, 0o600, tokenUrlsafe bytes⟩]⟩ := by
  rcases o with ⟨co, cho, wo, clo⟩
  cases co with
  | some m => simp [run] at h
  | none =>
    cases hp : pickName tmpdir (existing.map FileState.path) cands with
    | none => simp [run, hp] at h
    | some pth =>
        cases cho with
        | some m => simp [run, hp] at h
        | none =>
          cases wo with
          | some m => simp [run, hp] at h
          | none =>
            cases clo with
            | some m => simp [run, hp] at h
            | none => exact ⟨pth, rfl, by simp [run, hp]⟩

theorem run_handled_err (bytes : List Nat) (tmpdir : String)
    (cands : List String) (existing : List FileState) (o : Oracle)
    (m pth : String) (hc : o.createErr = none)
    (hp : pickName tmpdir (existing.map FileState.path) cands = some pth)
    (hm : firstErr o = some m) :
    (run bytes tmpdir cands existing o).exitCode = 1 ∧
      (run bytes tmpdir cands existing o).stderr = handledStderr m ∧
      (run bytes tmpdir cands existing o).stdout = "" ∧
      pth ∈ (run bytes tmpdir cands existing o).files.map FileState.path := by
  rcases o with ⟨co, cho, wo, clo⟩
  cases co with
  | some m0 => simp at hc
  | none =>
    simp only [firstErr] at hm
    cases cho with
    | some m0 =>
        rw [Option.some.injEq] at hm
        simp [run, hp, hm]
    | none =>
      cases wo with
      | some m0 =>
          rw [Option.some.injEq] at hm
          simp [run, hp, hm]
      | none =>
        cases clo with
        | some m0 =>
            rw [Option.some.injEq] at hm
            simp [run, hp, hm]
        | none => simp at hm

theorem run_stdout_indep (b1 b2 : List Nat) (tmpdir : String)
    (cands : List String) (existing : List FileState) (o : Oracle) :
    (run b1 tmpdir cands existing o).stdout =
      (run b2 tmpdir cands existing o).stdout := by
  rcases o with ⟨co, cho, wo, clo⟩
  cases co with
  | some m => simp [run]
  | none =>
    cases hp : pickName tmpdir (existing.map FileState.path) cands with
    | none => simp [run, hp]
    | some pth => cases cho <;> cases wo <;> cases clo <;> simp [run, hp]

/-! ### The secret cannot appear in the printed output -/

theorem headSep_append {s : List Char} {c0 : Char} (hne : s ≠ [])
    (h0 : s.head? = some c0) (hc0 : urlsafeChar c0 = false) (X : List Char) :
    ∀ c, (s ++ X).head? = some c → urlsafeChar c = false := by
  intro c hc
  rw [List.head?_append_of_ne_nil _ hne, h0, Option.some.injEq] at hc
  rw [← hc]
  exact hc0

theorem tokenUrlsafe_data_length (l : List Nat) (hl : l.length = 32) :
    (tokenUrlsafe l).data.length = 43 := by
  have h := tokenUrlsafe_length l
  rw [hl] at h
  have h2 : (tokenUrlsafe l).data.length = (4 * 32 + 2) / 3 := h
  rw [h2]

set_option maxRecDepth 40000 in
theorem secret_not_in_successStdout {p : List Char} (pth : String)
    (hlen : p.length = 43) (hpc : ∀ c ∈ p, urlsafeChar c = true)
    (hpath : ¬ occursIn p pth.data) :
    ¬ occursIn p (successStdout pth).data := by
  intro h
  have hd : (successStdout pth).data =
      outA1.data ++ (pth.data ++ (outA2.data ++ (pth.data ++
        (outA3.data ++ (pth.data ++ outA4.data))))) := by
    simp [successStdout]
  rw [hd] at h
  have k1 : ¬ occursIn p outA1.data :=
    no_occursIn_of_window (by decide) hlen hpc
  have k2 : ¬ occursIn p outA2.data :=
    no_occursIn_of_window (by decide) hlen hpc
  have k3 : ¬ occursIn p outA3.data :=
    no_occursIn_of_window (by decide) hlen hpc
  have k4 : ¬ occursIn p outA4.data :=
    no_occursIn_of_window (by decide) hlen hpc
  rcases occursIn_split_sepL hpc
      (lastSep_of_eq (by decide : outA1.data.getLast? = some ' ') (by decide)) h
    with h | h
  · exact k1 h
  rcases occursIn_split_sepR hpc
      (headSep_append (by decide) (by decide : outA2.data.head? = some '\n')
        (by decide) _) h
    with h | h
  · exact hpath h
  rcases occursIn_split_sepL hpc
      (lastSep_of_eq (by decide : outA2.data.getLast? = some ' ') (by decide)) h
    with h | h
  · exact k2 h
  rcases occursIn_split_sepR hpc
      (headSep_append (by decide) (by decide : outA3.data.head? = some ')')
        (by decide) _) h
    with h | h
  · exact hpath h
  rcases occursIn_split_sepL hpc
      (lastSep_of_eq (by decide : outA3.data.getLast? = some ' ') (by decide)) h
    with h | h
  · exact k3 h
  rcases occursIn_split_sepR hpc
      (headSep_of_eq (by decide : outA4.data.head? = some '\n') (by decide)) h
    with h | h
  · exact hpath h
  · exact k4 h

theorem tokenUrlsafe_not_in_successStdout (b : List Nat) (pth : String)
    (hv : validBytes b) (hl : b.length = 32)
    (hpath : ¬ occursIn (tokenUrlsafe b).data pth.data) :
    ¬ occursIn (tokenUrlsafe b).data (successStdout pth).data :=
  secret_not_in_successStdout pth (tokenUrlsafe_data_length b hl)
    (tokenUrlsafe_chars b hv) hpath

/-! ### Claims -/

/-- C1: whenever the program succeeds in creating the temporary file, that
file's permission bits are 0o600 — read and write for the owner only
(line 18 `os.chmod(temp_file.name, 0o600)` and the 0o600 creation mode of
`NamedTemporaryFile`). -/
theorem c1_success_file_mode_0600 (bytes : List Nat) (tmpdir : String)
    (cands : List String) (existing : List FileState) (o : Oracle)
    (h : (run bytes tmpdir cands existing o).exitCode = 0) :
    ∀ f ∈ (run bytes tmpdir cands existing o).files.drop existing.length,
      f.mode = 0o600 := by
  obtain ⟨pth, hp, heq⟩ := run_success_struct bytes tmpdir cands existing o h
  intro f hf
  rw [heq] at hf
  simp only [List.drop_left, List.mem_singleton] at hf
  rw [hf]

/-- Witness for C1 at a concrete run. -/
theorem c1_success_file_mode_0600_witness :
    (run (List.replicate 32 0) "/tmp" ["abc12345"] []
      ⟨none, none, none, none⟩).exitCode = 0 ∧
    ∀ f ∈ (run (List.replicate 32 0) "/tmp" ["abc12345"] []
        ⟨none, none, none, none⟩).files.drop (List.length ([] : List FileState)),
      f.mode = 0o600 :=
  ⟨by decide,
   c1_success_file_mode_0600 (List.replicate 32 0) "/tmp" ["abc12345"] []
     ⟨none, none, none, none⟩ (by decide)⟩

/-- C2: the printed standard output is independent of the generated secret —
two runs with the same path inputs but different draws print the same text —
and a secret that does not occur in the chosen path never occurs in the
success output (lines 24-32 interpolate only `temp_file.name`). -/
theorem c2_stdout_secret_independent (b1 b2 : List Nat) (tmpdir : String)
    (cands : List String) (existing : List FileState) (o : Oracle)
    (hv : validBytes b1) (hl : b1.length = 32) :
    (run b1 tmpdir cands existing o).stdout =
      (run b2 tmpdir cands existing o).stdout ∧
    ∀ pth : String, ¬ occursIn (tokenUrlsafe b1).data pth.data →
      ¬ occursIn (tokenUrlsafe b1).data (successStdout pth).data :=
  ⟨run_stdout_indep b1 b2 tmpdir cands existing o,
   fun pth hpath => tokenUrlsafe_not_in_successStdout b1 pth hv hl hpath⟩

/-- Witness for C2 at two concrete runs differing only in the drawn bytes. -/
theorem c2_stdout_secret_independent_witness :
    (run (List.replicate 32 0) "/tmp" ["abc12345"] []
        ⟨none, none, none, none⟩).stdout =
      (run (List.replicate 32 1) "/tmp" ["abc12345"] []
        ⟨none, none, none, none⟩).stdout ∧
    ∀ pth : String,
      ¬ occursIn (tokenUrlsafe (List.replicate 32 0)).data pth.data →
      ¬ occursIn (tokenUrlsafe (List.replicate 32 0)).data
          (successStdout pth).data :=
  c2_stdout_secret_independent (List.replicate 32 0) (List.replicate 32 1)
    "/tmp" ["abc12345"] [] ⟨none, none, none, none⟩ (by decide) (by decide)

/-- C3: the secret of a run is exactly `tokenUrlsafe` of the single 32-byte
draw of line 11, one secret per invocation: a successful run materialises
precisely that one 43-character string (the full 256 drawn bits) in the one
created file. -/
theorem c3_one_secret_from_32_byte_draw (bytes : List Nat) (tmpdir : String)
    (cands : List String) (existing : List FileState) (o : Oracle)
    (hl : bytes.length = 32)
    (h : (run bytes tmpdir cands existing o).exitCode = 0) :
    ∃ pth, pickName tmpdir (existing.map FileState.path) cands = some pth ∧
      (run bytes tmpdir cands existing o).files =
        existing ++ [⟨pth, 0o600, tokenUrlsafe bytes⟩] ∧
      (tokenUrlsafe bytes).data.length = 43 := by
  obtain ⟨pth, hp, heq⟩ := run_success_struct bytes tmpdir cands existing o h
  exact ⟨pth, hp, by rw [heq], tokenUrlsafe_data_length bytes hl⟩

/-- Witness for C3 at a concrete run. -/
theorem c3_one_secret_from_32_byte_draw_witness :
    ∃ pth, pickName "/tmp" (List.map FileState.path []) ["abc12345"] = some pth ∧
      (run (List.replicate 32 0) "/tmp" ["abc12345"] []
        ⟨none, none, none, none⟩).files =
        [] ++ [⟨pth, 0o600, tokenUrlsafe (List.replicate 32 0)⟩] ∧
      (tokenUrlsafe (List.replicate 32 0)).data.length = 43 :=
  c3_one_secret_from_32_byte_draw (List.replicate 32 0) "/tmp" ["abc12345"] []
    ⟨none, none, none, none⟩ (by decide) (by decide)

/-- C4: on any filesystem failure during creation, chmod, write or close,
there is no retry or recovery: nothing is printed to stdout, a diagnostic
containing the rendered error message reaches stderr (the explicit
`Error: ...` print of line 35 and/or the interpreter's traceback for the
re-raised exception of line 36), and the process exits nonzero. -/
theorem c4_failure_diagnostic_nonzero_exit (bytes : List Nat) (tmpdir : String)
    (cands : List String) (existing : List FileState) (o : Oracle)
    (m pth : String)
    (hp : pickName tmpdir (existing.map FileState.path) cands = some pth)
    (hm : firstErr o = some m) :
    (run bytes tmpdir cands existing o).exitCode ≠ 0 ∧
      occursIn m.data (run bytes tmpdir cands existing o).stderr.data ∧
      (run bytes tmpdir cands existing o).stdout = "" := by
  rcases o with ⟨co, cho, wo, clo⟩
  cases co with
  | some m0 =>
      have hm0 : m0 = m := by simpa [firstErr] using hm
      subst hm0
      refine ⟨by simp [run], ?_, by simp [run]⟩
      have hs : (run bytes tmpdir cands existing ⟨some m0, cho, wo, clo⟩).stderr =
          uncaughtStderr m0 := by simp [run]
      rw [hs]
      exact ⟨"Traceback (most recent call last):\n".data, "\n".data,
        by simp [uncaughtStderr]⟩
  | none =>
      obtain ⟨h1, h2, h3, _⟩ :=
        run_handled_err bytes tmpdir cands existing ⟨none, cho, wo, clo⟩ m pth
          rfl hp hm
      refine ⟨by rw [h1]; decide, ?_, h3⟩
      rw [h2]
      exact ⟨"Error: ".data,
        ("\nTraceback (most recent call last):\n" ++ m ++ "\n").data,
        by simp [handledStderr]⟩

/-- Witness for C4 at a concrete run whose chmod call fails. -/
theorem c4_failure_diagnostic_nonzero_exit_witness :
    (run (List.replicate 32 0) "/tmp" ["abc12345"] []
        ⟨none, some "boom", none, none⟩).exitCode ≠ 0 ∧
      occursIn "boom".data
        (run (List.replicate 32 0) "/tmp" ["abc12345"] []
          ⟨none, some "boom", none, none⟩).stderr.data ∧
      (run (List.replicate 32 0) "/tmp" ["abc12345"] []
        ⟨none, some "boom", none, none⟩).stdout = "" :=
  c4_failure_diagnostic_nonzero_exit (List.replicate 32 0) "/tmp" ["abc12345"]
    [] ⟨none, some "boom", none, none⟩ "boom" (tmpName "/tmp" "abc12345")
    rfl rfl

/-- C5: on success the temporary file holds exactly the generated secret,
with no trailing newline or surrounding text, and the file's path — never a
secret not already occurring inside that path — is printed to stdout. -/
theorem c5_file_content_exactly_secret (bytes : List Nat) (tmpdir : String)
    (cands : List String) (existing : List FileState) (o : Oracle)
    (hv : validBytes bytes) (hl : bytes.length = 32)
    (h : (run bytes tmpdir cands existing o).exitCode = 0) :
    ∃ pth, pickName tmpdir (existing.map FileState.path) cands = some pth ∧
      (run bytes tmpdir cands existing o).files =
        existing ++ [⟨pth, 0o600, tokenUrlsafe bytes⟩] ∧
      (run bytes tmpdir cands existing o).stdout = successStdout pth ∧
      occursIn pth.data (run bytes tmpdir cands existing o).stdout.data ∧
      (¬ occursIn (tokenUrlsafe bytes).data pth.data →
        ¬ occursIn (tokenUrlsafe bytes).data
            (run bytes tmpdir cands existing o).stdout.data) := by
  obtain ⟨pth, hp, heq⟩ := run_success_struct bytes tmpdir cands existing o h
  refine ⟨pth, hp, by rw [heq], by rw [heq], ?_, ?_⟩
  · rw [heq]
    exact ⟨outA1.data, (outA2 ++ pth ++ outA3 ++ pth ++ outA4).data,
      by simp [successStdout]⟩
  · intro hpath
    rw [heq]
    exact tokenUrlsafe_not_in_successStdout bytes pth hv hl hpath

/-- Witness for C5 at a concrete run. -/
theorem c5_file_content_exactly_secret_witness :
    ∃ pth, pickName "/tmp" (List.map FileState.path []) ["abc12345"] = some pth ∧
      (run (List.replicate 32 0) "/tmp" ["abc12345"] []
        ⟨none, none, none, none⟩).files =
        [] ++ [⟨pth, 0o600, tokenUrlsafe (List.replicate 32 0)⟩] ∧
      (run (List.replicate 32 0) "/tmp" ["abc12345"] []
        ⟨none, none, none, none⟩).stdout = successStdout pth ∧
      occursIn pth.data
        (run (List.replicate 32 0) "/tmp" ["abc12345"] []
          ⟨none, none, none, none⟩).stdout.data ∧
      (¬ occursIn (tokenUrlsafe (List.replicate 32 0)).data pth.data →
        ¬ occursIn (tokenUrlsafe (List.replicate 32 0)).data
            (run (List.replicate 32 0) "/tmp" ["abc12345"] []
              ⟨none, none, none, none⟩).stdout.data) :=
  c5_file_content_exactly_secret (List.replicate 32 0) "/tmp" ["abc12345"] []
    ⟨none, none, none, none⟩ (by decide) (by decide) (by decide)

/-- C6: distinct 32-byte draws give distinct secrets (the encoding behind
line 11 is injective on the drawn bytes), and a second run performed while
the first run's file is still on disk picks a different path (the `O_EXCL`
name selection of `tempfile` never reuses an existing name). -/
theorem c6_distinct_secrets_and_paths (b1 b2 : List Nat)
    (h1 : validBytes b1) (h2 : validBytes b2) (hne : b1 ≠ b2) :
    tokenUrlsafe b1 ≠ tokenUrlsafe b2 ∧
    ∀ tmpdir cands1 cands2 existing o1 pth1 pth2,
      (run b1 tmpdir cands1 existing o1).exitCode = 0 →
      pickName tmpdir (existing.map FileState.path) cands1 = some pth1 →
      pickName tmpdir
          ((run b1 tmpdir cands1 existing o1).files.map FileState.path)
          cands2 = some pth2 →
      pth2 ≠ pth1 := by
  constructor
  · intro he
    exact hne (tokenUrlsafe_injOn h1 h2 he)
  · intro tmpdir cands1 cands2 existing o1 pth1 pth2 hs hp1 hp2
    obtain ⟨pth, hp, heq⟩ := run_success_struct b1 tmpdir cands1 existing o1 hs
    rw [hp, Option.some.injEq] at hp1
    have hmem : pth1 ∈ (run b1 tmpdir cands1 existing o1).files.map
        FileState.path := by
      rw [heq, ← hp1]
      simp
    have hnot := pickName_not_mem hp2
    intro hcontr
    rw [hcontr] at hnot
    exact hnot hmem

/-- Witness for C6 at two concrete distinct draws. -/
theorem c6_distinct_secrets_and_paths_witness :
    tokenUrlsafe (List.replicate 32 0) ≠ tokenUrlsafe (List.replicate 32 1) ∧
    ∀ tmpdir cands1 cands2 existing o1 pth1 pth2,
      (run (List.replicate 32 0) tmpdir cands1 existing o1).exitCode = 0 →
      pickName tmpdir (existing.map FileState.path) cands1 = some pth1 →
      pickName tmpdir
          ((run (List.replicate 32 0) tmpdir cands1 existing o1).files.map
            FileState.path) cands2 = some pth2 →
      pth2 ≠ pth1 :=
  c6_distinct_secrets_and_paths (List.replicate 32 0) (List.replicate 32 1)
    (by decide) (by decide) (by decide)

set_option maxRecDepth 40000 in
/-- C7: the advisory text cites the work-factor example `rounds=12`
(line 29), and no literal segment of the instructional text can contain a
generated secret. -/
theorem c7_advisory_rounds12_no_secret (pth : String) (b : List Nat)
    (hv : validBytes b) (hl : b.length = 32) :
    occursIn "rounds=12".data (successStdout pth).data ∧
    ∀ a ∈ [outA1, outA2, outA3, outA4],
      ¬ occursIn (tokenUrlsafe b).data a.data := by
  constructor
  · have h3 : occursIn "rounds=12".data outA3.data := by decide
    have hd : (successStdout pth).data =
        (outA1.data ++ pth.data ++ outA2.data ++ pth.data) ++
          (outA3.data ++ (pth.data ++ outA4.data)) := by
      simp [successStdout]
    rw [hd]
    exact occursIn_append_left _ (occursIn_append_right _ h3)
  · intro a ha
    have hlen := tokenUrlsafe_data_length b hl
    have hpc := tokenUrlsafe_chars b hv
    simp only [List.mem_cons, List.not_mem_nil, or_false] at ha
    rcases ha with rfl | rfl | rfl | rfl
    · exact no_occursIn_of_window (by decide) hlen hpc
    · exact no_occursIn_of_window (by decide) hlen hpc
    · exact no_occursIn_of_window (by decide) hlen hpc
    · exact no_occursIn_of_window (by decide) hlen hpc

/-- Witness for C7 at a concrete path and draw. -/
theorem c7_advisory_rounds12_no_secret_witness :
    occursIn "rounds=12".data (successStdout "/tmp/x.txt").data ∧
    ∀ a ∈ [outA1, outA2, outA3, outA4],
      ¬ occursIn (tokenUrlsafe (List.replicate 32 0)).data a.data :=
  c7_advisory_rounds12_no_secret "/tmp/x.txt" (List.replicate 32 0)
    (by decide) (by decide)

/-- C8: the script reads no command-line arguments — the run result is
literally the same function for every argv — and the exit status is 0
exactly when no filesystem error occurred during secret materialization. -/
theorem c8_no_args_exit_zero_iff (argv1 argv2 : List String) (bytes : List Nat)
    (tmpdir : String) (cands : List String) (existing : List FileState)
    (o : Oracle) :
    runWithArgs argv1 bytes tmpdir cands existing o =
      runWithArgs argv2 bytes tmpdir cands existing o ∧
    ((run bytes tmpdir cands existing o).exitCode = 0 ↔
      firstErr o = none ∧
        pickName tmpdir (existing.map FileState.path) cands ≠ none) := by
  refine ⟨rfl, ?_⟩
  rcases o with ⟨co, cho, wo, clo⟩
  cases co with
  | some m => simp [run, firstErr]
  | none =>
    cases hp : pickName tmpdir (existing.map FileState.path) cands with
    | none => simp [run, hp, firstErr]
    | some pth => cases cho <;> cases wo <;> cases clo <;> simp [run, hp, firstErr]

/-- C9: a successful run creates exactly one temporary file whose name is
the directory, the fixed prefix `bcrypt_password_`, a random suffix from
the candidate sequence, and the plain-text extension `.txt` (line 15). -/
theorem c9_single_file_name_pattern (bytes : List Nat) (tmpdir : String)
    (cands : List String) (existing : List FileState) (o : Oracle)
    (h : (run bytes tmpdir cands existing o).exitCode = 0) :
    ∃ pth r, r ∈ cands ∧
      pth = tmpdir ++ "/bcrypt_password_" ++ r ++ ".txt" ∧
      (run bytes tmpdir cands existing o).files =
        existing ++ [⟨pth, 0o600, tokenUrlsafe bytes⟩] := by
  obtain ⟨pth, hp, heq⟩ := run_success_struct bytes tmpdir cands existing o h
  obtain ⟨r, hr, hshape⟩ := pickName_shape hp
  exact ⟨pth, r, hr, hshape, by rw [heq]⟩

/-- Witness for C9 at a concrete run. -/
theorem c9_single_file_name_pattern_witness :
    ∃ pth r, r ∈ ["abc12345"] ∧
      pth = "/tmp" ++ "/bcrypt_password_" ++ r ++ ".txt" ∧
      (run (List.replicate 32 0) "/tmp" ["abc12345"] []
        ⟨none, none, none, none⟩).files =
        [] ++ [⟨pth, 0o600, tokenUrlsafe (List.replicate 32 0)⟩] :=
  c9_single_file_name_pattern (List.replicate 32 0) "/tmp" ["abc12345"] []
    ⟨none, none, none, none⟩ (by decide)

/-- C10: when an OS call fails after the temporary file has been created
(chmod, write or close), no cleanup happens — the file was opened with
`delete=False` and the handler on lines 34-36 deletes nothing — so the run
exits nonzero while the created path is still on disk. -/
theorem c10_no_cleanup_on_error (bytes : List Nat) (tmpdir : String)
    (cands : List String) (existing : List FileState) (o : Oracle)
    (m pth : String) (hc : o.createErr = none)
    (hp : pickName tmpdir (existing.map FileState.path) cands = some pth)
    (hm : firstErr o = some m) :
    (run bytes tmpdir cands existing o).exitCode ≠ 0 ∧
      pth ∈ (run bytes tmpdir cands existing o).files.map FileState.path := by
  obtain ⟨h1, _, _, h4⟩ :=
    run_handled_err bytes tmpdir cands existing o m pth hc hp hm
  exact ⟨by rw [h1]; decide, h4⟩

/-- Witness for C10 at a concrete run whose write call fails. -/
theorem c10_no_cleanup_on_error_witness :
    (run (List.replicate 32 0) "/tmp" ["abc12345"] []
        ⟨none, none, some "disk full", none⟩).exitCode ≠ 0 ∧
      tmpName "/tmp" "abc12345" ∈
        (run (List.replicate 32 0) "/tmp" ["abc12345"] []
          ⟨none, none, some "disk full", none⟩).files.map FileState.path :=
  c10_no_cleanup_on_error (List.replicate 32 0) "/tmp" ["abc12345"] []
    ⟨none, none, some "disk full", none⟩ "disk full" (tmpName "/tmp" "abc12345")
    rfl rfl rfl

end GenerateBcrypt
